import Mathlib

/-!
Verification of the templating/diffing engine and application glue of the
SLIDEM repository (src/index.nomodule.js), as a shallow embedding in Lean.

The embedding models:
 * the live DOM as a tree of identified nodes (`LNode`/`LForest`); node ids
   stand for JavaScript object identity, and fresh ids are threaded through a
   counter so that "the same node" is expressible across renders;
 * the rendering values (`Scalar`/`Value`) for the value shapes the engine
   dispatches on in the code under verification: primitives, arrays,
   non-string iterable objects and thenables (promise-like objects);
 * the Template compiler (`walkForest`), the `html` tag with its identity
   cache (`htmlTag`), `TemplateInstance` (`updateParts`, clone/bind) and the
   `render` entry point (`renderM`);
 * `NodePart` and `AttributePart` value resolution;
 * the keybinding registry (`registerKey`/`dispatchKey`), the slide deck's
   URL-hash parsing (`currentSlideOf`/`currentStepOf`), and the slide `step`
   attribute clamping (`stepAfterChange`).

Environment-provided behaviour (the browser's HTML parser, `Math.random`,
event scheduling) is modelled explicitly where the code consumes it: the
parsed template fragment is an input to compilation, the random expression
marker is a fixed representative string, and a thenable's resolution is a
separate event (`NPart.resolveThenable`) applied after any number of
intervening synchronous writes.
-/

/-! ## JavaScript values (the shapes dispatched on by the engine) -/

/-- JavaScript primitive values (`typeof value` neither object nor function).
`nullv` is JavaScript `null`; it is normalised to `undef` by `getValue`. -/
inductive Scalar where
  | str (s : String)
  | num (n : Int)
  | bool (b : Bool)
  | undef
  | nullv
deriving DecidableEq

/-- JavaScript string coercion of a primitive, as used by `Text` construction,
`textContent` assignment and string concatenation. -/
def Scalar.toStr : Scalar → String
  | .str s => s
  | .num n => n.repr
  | .bool b => if b then "true" else "false"
  | .undef => "undefined"
  | .nullv => "null"

/-- The value shapes the claims exercise, matching the dispatch chain of
`NodePart.setValue` (src/index.nomodule.js:207-234) and the iterable test of
`AttributePart.setValue` (lines 186-187): primitives, arrays, non-array
iterable objects, and thenables (objects with a `then` member).  Iterable
items are primitives, as in every rendered scenario of the claims. -/
inductive Value where
  | prim (s : Scalar)
  | arr (items : List Scalar)
  | iterObj (items : List Scalar)
  | thenable (tid : Nat)
deriving DecidableEq

/-- JavaScript truthiness for the modelled values. -/
def Value.truthy : Value → Bool
  | .prim (.str s) => !(s = "")
  | .prim (.num n) => !(n = 0)
  | .prim (.bool b) => b
  | .prim .undef => false
  | .prim .nullv => false
  | .arr _ => true
  | .iterObj _ => true
  | .thenable _ => true

/-- Models `Array.isArray(value)`. -/
def Value.isArray : Value → Bool
  | .arr _ => true
  | _ => false

/-- Models `typeof value === 'string'`. -/
def Value.isString : Value → Bool
  | .prim (.str _) => true
  | _ => false

/-- Truthiness of `value[Symbol.iterator]`: arrays, iterable objects and
strings carry the well-known iterator symbol. -/
def Value.hasIter : Value → Bool
  | .arr _ => true
  | .iterObj _ => true
  | .prim (.str _) => true
  | _ => false

/-- JavaScript string coercion of a modelled value (`'' + value`). An array
stringifies as its comma-joined items; plain objects as "[object Object]". -/
def Value.toStr : Value → String
  | .prim s => s.toStr
  | .arr items => String.intercalate "," (items.map Scalar.toStr)
  | .iterObj _ => "[object Object]"
  | .thenable _ => "[object Object]"

/-- Models `getValue` (src/index.nomodule.js:162-169) without the directive branch
(no modelled value is a directive-tagged callable): `null` is converted to
`undefined` so that it renders as empty rather than the string "null". -/
def getValue (v : Value) : Value :=
  if v = .prim .nullv then .prim .undef else v

/-! ## The live DOM

A mutual pair of inductives: a node is a text node or an element with an
attribute list and children.  Every node carries an id modelling JavaScript
object identity.  All mutating operations locate nodes by id; ids are unique
by construction (allocated from a counter). -/

mutual
inductive LNode where
  | text (id : Nat) (content : String)
  | elem (id : Nat) (tag : String) (attrs : List (String × String)) (children : LForest)
inductive LForest where
  | nil
  | cons (n : LNode) (rest : LForest)
end

/-- The id of a node. -/
def LNode.nid : LNode → Nat
  | .text i _ => i
  | .elem i _ _ _ => i

/-- Whether a node is a text node (`node.nodeType === Node.TEXT_NODE`). -/
def LNode.isText : LNode → Bool
  | .text _ _ => true
  | _ => false

/-- Convert a plain list of nodes to a forest (notation helper for
concrete scenario states). -/
def LForest.ofList : List LNode → LForest
  | [] => .nil
  | n :: t => .cons n (LForest.ofList t)

/-- First node of a forest, if any. -/
def LForest.head? : LForest → Option LNode
  | .nil => none
  | .cons n _ => some n

mutual
/-- Pre-order document-order listing of a node and its descendants, as a
`TreeWalker` with `whatToShow = 5` (elements and text) visits them. -/
def enumNode : LNode → List LNode
  | .text i c => [.text i c]
  | .elem i t a cs => .elem i t a cs :: enumForest cs

def enumForest : LForest → List LNode
  | .nil => []
  | .cons n rest => enumNode n ++ enumForest rest
end

mutual
/-- Models `startNode.nextSibling`, searching the whole tree for the node with the
given id.  Result: `none` if the id is absent, `some none` if the node is a
last child (its `nextSibling` is null), `some (some n)` otherwise. -/
def nextSibNode (i : Nat) : LNode → Option (Option LNode)
  | .text _ _ => none
  | .elem _ _ _ cs => nextSibForest i cs

def nextSibForest (i : Nat) : LForest → Option (Option LNode)
  | .nil => none
  | .cons n rest =>
    if n.nid = i then some rest.head?
    else match nextSibNode i n with
      | some r => some r
      | none => nextSibForest i rest
end

/-- Models `node.nextSibling` for the node with id `i`, or `none` when the node is
absent or a last child. -/
def nextSibOf (dom : LForest) (i : Nat) : Option LNode :=
  (nextSibForest i dom).bind id

mutual
/-- Models `endNode.previousSibling`: the node right before the node with id `i`
in its sibling list.  `prev` is the sibling already passed in the current
list (starts as `none` for a first child). -/
def prevSibNode (i : Nat) : LNode → Option (Option LNode)
  | .text _ _ => none
  | .elem _ _ _ cs => prevSibForest i none cs

def prevSibForest (i : Nat) : Option LNode → LForest → Option (Option LNode)
  | _, .nil => none
  | prev, .cons n rest =>
    if n.nid = i then some prev
    else match prevSibNode i n with
      | some r => some r
      | none => prevSibForest i (some n) rest
end

/-- Models `node.previousSibling` for the node with id `i`, or `none` when absent
or a first child. -/
def prevSibOf (dom : LForest) (i : Nat) : Option LNode :=
  (prevSibForest i none dom).bind id

mutual
/-- Models `parent.insertBefore(m, ref)`: insert node `m` right before the node
with id `ref`.  If `ref` is nowhere in the tree the tree is unchanged (the
code never does this: `insertBefore` would throw). -/
def insertBeforeNode (ref : Nat) (m : LNode) : LNode → LNode
  | .text i c => .text i c
  | .elem i t a cs => .elem i t a (insertBeforeForest ref m cs)

def insertBeforeForest (ref : Nat) (m : LNode) : LForest → LForest
  | .nil => .nil
  | .cons n rest =>
    if n.nid = ref then .cons m (.cons n rest)
    else .cons (insertBeforeNode ref m n) (insertBeforeForest ref m rest)
end

mutual
/-- Models `node.textContent = s` on the text node with id `i`. -/
def setTextNode (i : Nat) (s : String) : LNode → LNode
  | .text j c => if j = i then .text j s else .text j c
  | .elem j t a cs => .elem j t a (setTextForest i s cs)

def setTextForest (i : Nat) (s : String) : LForest → LForest
  | .nil => .nil
  | .cons n rest => .cons (setTextNode i s n) (setTextForest i s rest)
end

/-- Models `element.setAttribute(name, value)` on an attribute list: replace the
existing entry or append a new one. -/
def setAttrList (attrs : List (String × String)) (name v : String) : List (String × String) :=
  if attrs.any (fun p => p.1 = name) then
    attrs.map (fun p => if p.1 = name then (name, v) else p)
  else attrs ++ [(name, v)]

mutual
/-- Models `element.setAttribute(name, v)` on the element with id `i`. -/
def setAttrNode (i : Nat) (name v : String) : LNode → LNode
  | .text j c => .text j c
  | .elem j t a cs =>
    if j = i then .elem j t (setAttrList a name v) cs
    else .elem j t a (setAttrForest i name v cs)

def setAttrForest (i : Nat) (name v : String) : LForest → LForest
  | .nil => .nil
  | .cons n rest => .cons (setAttrNode i name v n) (setAttrForest i name v rest)
end

mutual
/-- Models `element.getAttribute(name)` on the element with id `i` (`none` models
the null result for an absent attribute or element). -/
def getAttrNode (i : Nat) (name : String) : LNode → Option String
  | .text _ _ => none
  | .elem j _ a cs =>
    if j = i then (a.find? (fun p => p.1 = name)).map (fun p => p.2)
    else getAttrForest i name cs

def getAttrForest (i : Nat) (name : String) : LForest → Option String
  | .nil => none
  | .cons n rest =>
    match getAttrNode i name n with
    | some v => some v
    | none => getAttrForest i name rest
end

/-- Keep a sibling list from the node with id `e` onwards (the clearing loop
of `NodePart.clear` stops when it reaches `endNode`). -/
def dropUntilId (e : Nat) : LForest → LForest
  | .nil => .nil
  | .cons n rest => if n.nid = e then .cons n rest else dropUntilId e rest

mutual
/-- Models `NodePart.clear(startNode)` (src/index.nomodule.js:329-334): remove every
node strictly between the node with id `s` and the node with id `e` in the
sibling list holding `s`. -/
def clearNode (s e : Nat) : LNode → LNode
  | .text i c => .text i c
  | .elem i t a cs => .elem i t a (clearForest s e cs)

def clearForest (s e : Nat) : LForest → LForest
  | .nil => .nil
  | .cons n rest =>
    if n.nid = s then .cons n (dropUntilId e rest)
    else .cons (clearNode s e n) (clearForest s e rest)
end

/-- Mutable document state threaded through the engine: the container's
child forest plus the allocator for fresh node ids (JavaScript object
creation). -/
structure DomSt where
  dom : LForest
  nextId : Nat

/-! ## NodePart (src/index.nomodule.js:201-335) -/

/-- A child `NodePart` created by `_setIterable` for one item of an iterable.
Items of modelled iterables are primitives, so a child part's
`_previousValue` is always a primitive; it starts as JavaScript `undefined`. -/
structure ItemPart where
  startId : Nat
  endId : Nat
  prevScalar : Scalar
deriving DecidableEq

/-- Models `NodePart._previousValue`: either a stored value (primitive or thenable;
initially `undefined`) or the array of child parts kept by `_setIterable`. -/
inductive Prev where
  | val (v : Value)
  | parts (ps : List ItemPart)
deriving DecidableEq

/-- A `NodePart`: start and end marker node ids plus the previously rendered
value. -/
structure NPart where
  startId : Nat
  endId : Nat
  prev : Prev
deriving DecidableEq

/-- Models `NodePart._setText` body shared by outer and child parts
(src/index.nomodule.js:243-257): if exactly one node sits between the
markers and it is a text node, mutate its character data in place; otherwise
clear the gap and insert a fresh text node (`_setNode(new Text(value))`). -/
def partWriteText (st : DomSt) (sId eId : Nat) (s : Scalar) : DomSt :=
  let fresh : DomSt :=
    { dom := insertBeforeForest eId (.text st.nextId s.toStr) (clearForest sId eId st.dom),
      nextId := st.nextId + 1 }
  match nextSibOf st.dom sId, prevSibOf st.dom eId with
  | some n, some p =>
    if n.nid = p.nid ∧ n.isText then
      { st with dom := setTextForest n.nid s.toStr st.dom }
    else fresh
  | _, _ => fresh

/-- Models `setValue` of a child `NodePart` on one (primitive) iterable item: the
primitive branch of `NodePart.setValue` (src/index.nomodule.js:209-217). -/
def ItemPart.setVal (st : DomSt) (ip : ItemPart) (s0 : Scalar) : DomSt × ItemPart :=
  let s := if s0 = .nullv then .undef else s0
  if ip.prevScalar = s then (st, ip)
  else (partWriteText st ip.startId ip.endId s, { ip with prevScalar := s })

/-- Replace the `endId` of the last part in the list (the in-place
`previousPart.endNode = ...` / `lastPart.endNode = ...` mutations of
`_setIterable`). -/
def setLastEnd (e : Nat) : List ItemPart → List ItemPart
  | [] => []
  | [p] => [{ p with endId := e }]
  | p :: rest => p :: setLastEnd e rest

/-- The per-item loop of `NodePart._setIterable`
(src/index.nomodule.js:289-310).  `done` is the processed prefix of the
part list (JavaScript mutates one array in place; here the reused prefix,
the unconsumed old suffix `old` and the items still to stamp are explicit).
Reuses an existing part positionally when one is left, otherwise creates a
separator marker text node (fixing up the previous part's end marker) and a
new child part chained to the outer part's end marker. -/
def setIterLoop (outerStart outerEnd : Nat) :
    DomSt → List ItemPart → List ItemPart → List Scalar → DomSt × List ItemPart × List ItemPart
  | st, done, old, [] => (st, done, old)
  | st, done, op :: old', item :: items =>
    let r := ItemPart.setVal st op item
    setIterLoop outerStart outerEnd r.1 (done ++ [r.2]) old' items
  | st, done, [], item :: items =>
    let created : DomSt × List ItemPart × Nat :=
      match done with
      | [] => (st, done, outerStart)
      | _ :: _ =>
        let mid := st.nextId
        ({ dom := insertBeforeForest outerEnd (.text mid "") st.dom, nextId := mid + 1 },
         setLastEnd mid done, mid)
    let np : ItemPart := { startId := created.2.2, endId := outerEnd, prevScalar := .undef }
    let r := ItemPart.setVal created.1 np item
    setIterLoop outerStart outerEnd r.1 (created.2.1 ++ [r.2]) [] items

/-- Models `NodePart._setIterable` (src/index.nomodule.js:272-320).  If the previous
value is not a part array, clear the gap and start from an empty array.
After stamping: an empty iterable clears everything and resets the previous
value to `undefined`; a shorter iterable removes the DOM from just after the
last stamped part's content up to the outer end marker and re-points that
part's end marker at the outer end marker — the unconsumed part objects stay
in the array (the code never truncates it). -/
def NPart.setIterable (st : DomSt) (p : NPart) (items : List Scalar) : DomSt × NPart :=
  let init : DomSt × List ItemPart :=
    match p.prev with
    | .parts ps => (st, ps)
    | .val _ => ({ st with dom := clearForest p.startId p.endId st.dom }, [])
  let r := setIterLoop p.startId p.endId init.1 [] init.2 items
  match r.2.1, r.2.2 with
  | [], _ =>
    ({ r.1 with dom := clearForest p.startId p.endId r.1.dom }, { p with prev := .val (.prim .undef) })
  | done@(_ :: _), [] => (r.1, { p with prev := .parts done })
  | done@(_ :: _), leftover@(_ :: _) =>
    let lastEnd := (done.getLastD { startId := 0, endId := 0, prevScalar := .undef }).endId
    let st2 : DomSt :=
      match prevSibOf r.1.dom lastEnd with
      | some n => { r.1 with dom := clearForest n.nid p.endId r.1.dom }
      | none => r.1
    (st2, { p with prev := .parts (setLastEnd p.endId done ++ leftover) })

/-- Models `NodePart.setValue` (src/index.nomodule.js:207-234) over the modelled
value shapes: primitives short-circuit on identity with the previous value
and otherwise write text; arrays and iterable objects go to `_setIterable`;
thenables go to `_setPromise`, which only stores the thenable as the
previous value (its resolution is the separate event
`NPart.resolveThenable`). -/
def NPart.setValue (st : DomSt) (p : NPart) (v0 : Value) : DomSt × NPart :=
  match getValue v0 with
  | .prim s =>
    if p.prev = .val (.prim s) then (st, p)
    else (partWriteText st p.startId p.endId s, { p with prev := .val (.prim s) })
  | .arr items => NPart.setIterable st p items
  | .iterObj items => NPart.setIterable st p items
  | .thenable tid => (st, { p with prev := .val (.thenable tid) })

/-- Resolution of the thenable with id `tid` with value `v`
(src/index.nomodule.js:321-328): the continuation re-invokes the full
`setValue` algorithm with the resolved value only if the part's previous
value is still this exact thenable; otherwise it is a no-op. -/
def NPart.resolveThenable (st : DomSt) (p : NPart) (tid : Nat) (v : Value) : DomSt × NPart :=
  if p.prev = .val (.thenable tid) then NPart.setValue st p v else (st, p)

/-- The child part list stored in a previous value (empty when the previous
value is not a part array). -/
def Prev.partsList : Prev → List ItemPart
  | .parts ps => ps
  | .val _ => []

/-! ### Scenario for claim C3: a Node Part renders `[1,2,3]`, then `[1,2]`.

The part's markers are the text nodes with ids 0 and 9; fresh ids are
allocated from 10. -/

/-- State after rendering the iterable `[1,2,3]` into an empty Node Part. -/
def iterDemo1 : DomSt × NPart :=
  NPart.setValue { dom := .ofList [.text 0 "", .text 9 ""], nextId := 10 }
    { startId := 0, endId := 9, prev := .val (.prim .undef) }
    (.arr [.num 1, .num 2, .num 3])

/-- State after then rendering the shorter iterable `[1,2]`. -/
def iterDemo2 : DomSt × NPart :=
  NPart.setValue iterDemo1.1 iterDemo1.2 (.arr [.num 1, .num 2])

/-- Claim C3 (counterexample): after `[1,2,3]` then `[1,2]`, the trailing
child Node Part is *not* dropped — the stored child part list still has
three entries, not two.  (Only its DOM is removed; the stale third part
object, whose start marker id 13 is no longer in the document, stays in
`_previousValue`.) -/
theorem nodePart_iterable_shrink_counterexample :
    ¬ (iterDemo2.2.prev.partsList.length = 2) := by decide

/-- Claim C3 (amended): rendering `[1,2,3]` then `[1,2]` retains the DOM of
items 0 and 1 (nodes 10 and 12, with their separator 11 and the outer
markers 0 and 9), removes item 2's text node (14) and its separator marker
(13), allocates nothing, and re-points the last retained child part's end
marker at the outer part's end marker (id 9) — but the trailing child part
object remains in the stored part list with its stale markers. -/
theorem nodePart_iterable_shrink_amended :
    iterDemo1.1.dom = .ofList [.text 0 "", .text 10 "1", .text 11 "", .text 12 "2",
                               .text 13 "", .text 14 "3", .text 9 ""]
    ∧ iterDemo2.1.dom = .ofList [.text 0 "", .text 10 "1", .text 11 "", .text 12 "2", .text 9 ""]
    ∧ iterDemo2.2 = ⟨0, 9, .parts [⟨0, 11, .num 1⟩, ⟨11, 9, .num 2⟩, ⟨13, 9, .num 3⟩]⟩
    ∧ iterDemo2.1.nextId = iterDemo1.1.nextId :=
  ⟨rfl, rfl, rfl, rfl⟩

/-! ## String primitives

`String.splitOn` in Lean core is defined by well-founded recursion and does
not evaluate inside the kernel, so JavaScript's `String.prototype.split`
(with a non-empty separator, scanning left to right, non-overlapping) is
modelled directly on character lists.  The fuel argument is the string
length; each step consumes at least one character, so it never runs out. -/

def splitOnListAux (sep : List Char) : Nat → List Char → List Char → List (List Char)
  | _, [], acc => [acc.reverse]
  | 0, s, acc => [acc.reverse ++ s]
  | fuel + 1, c :: cs, acc =>
    if sep.isPrefixOf (c :: cs) then
      acc.reverse :: splitOnListAux sep fuel (List.drop sep.length (c :: cs)) []
    else splitOnListAux sep fuel cs (c :: acc)

/-- Models `s.split(sep)` for a non-empty separator (an empty separator never occurs:
the only separator used is the expression marker). -/
def jsSplit (s sep : String) : List String :=
  if sep.data = [] then [s]
  else (splitOnListAux sep.data s.data.length s.data []).map String.mk

/-- Models `!s.trim()`: the string contains nothing but whitespace. -/
def jsBlank (s : String) : Bool := s.data.all Char.isWhitespace

/-- Models `s.substring(0, n)`. -/
def jsTake (s : String) (n : Nat) : String := String.mk (s.data.take n)

/-! ### Claim C4: staleness guard on thenable resolution -/

/-- After `_setIterable`, the previous value is a part array or (for an empty
iterable) `undefined` — never a stored thenable. -/
theorem setIterable_prev_not_thenable (st : DomSt) (p : NPart) (items : List Scalar)
    (tid : Nat) : (NPart.setIterable st p items).2.prev ≠ .val (.thenable tid) := by
  unfold NPart.setIterable
  split <;> (simp only []; split <;> simp)

/-- Models `getValue` maps a primitive to a primitive (the null normalisation
yields `undefined`). -/
theorem getValue_prim_shape (s : Scalar) : ∃ s', getValue (.prim s) = .prim s' := by
  by_cases h : (Value.prim s) = .prim .nullv
  · exact ⟨.undef, by simp [getValue, h]⟩
  · exact ⟨s, by simp [getValue, h]⟩

/-- After `setValue` with any value other than the thenable `tid` itself,
the part's previous value is not that thenable. -/
theorem setValue_prev_not_thenable (st : DomSt) (p : NPart) (v : Value) (tid : Nat)
    (hv : v ≠ .thenable tid) :
    (NPart.setValue st p v).2.prev ≠ .val (.thenable tid) := by
  rcases v with s | items | items | tid'
  · obtain ⟨s', hs'⟩ := getValue_prim_shape s
    simp only [NPart.setValue, hs']
    split
    · next h => simp_all
    · simp
  · exact setIterable_prev_not_thenable st p items tid
  · exact setIterable_prev_not_thenable st p items tid
  · simp only [NPart.setValue, getValue]
    simp only [ne_eq, Value.thenable.injEq] at hv
    simp [hv]

/-- Claim C4: if a Node Part's value is set to a thenable and, before it
resolves, `setValue` runs again with a different value, the thenable's later
resolution is a no-op (state unchanged); had it resolved before the newer
write, the resolved value would have been applied by re-invoking `setValue`. -/
theorem nodePart_promise_stale_guard (st : DomSt) (p : NPart) (tid : Nat) (v2 w : Value)
    (hv2 : v2 ≠ .thenable tid) :
    NPart.resolveThenable (NPart.setValue (NPart.setValue st p (.thenable tid)).1
        (NPart.setValue st p (.thenable tid)).2 v2).1
      (NPart.setValue (NPart.setValue st p (.thenable tid)).1
        (NPart.setValue st p (.thenable tid)).2 v2).2 tid w
      = NPart.setValue (NPart.setValue st p (.thenable tid)).1
          (NPart.setValue st p (.thenable tid)).2 v2
    ∧ NPart.resolveThenable (NPart.setValue st p (.thenable tid)).1
        (NPart.setValue st p (.thenable tid)).2 tid w
      = NPart.setValue (NPart.setValue st p (.thenable tid)).1
          (NPart.setValue st p (.thenable tid)).2 w := by
  constructor
  · have h := setValue_prev_not_thenable (NPart.setValue st p (.thenable tid)).1
      (NPart.setValue st p (.thenable tid)).2 v2 tid hv2
    simp [NPart.resolveThenable, h]
  · simp [NPart.resolveThenable, NPart.setValue, getValue]

/-- Witness for C4 at a concrete input: part with markers 0/9, thenable 5,
newer synchronous write of the string "fresh", late resolution with 42. -/
theorem nodePart_promise_stale_guard_witness :
    ((Value.prim (.str "fresh")) ≠ Value.thenable 5)
    ∧ (NPart.resolveThenable (NPart.setValue (NPart.setValue
          { dom := .ofList [.text 0 "", .text 9 ""], nextId := 10 }
          { startId := 0, endId := 9, prev := .val (.prim .undef) } (.thenable 5)).1
        (NPart.setValue { dom := .ofList [.text 0 "", .text 9 ""], nextId := 10 }
          { startId := 0, endId := 9, prev := .val (.prim .undef) } (.thenable 5)).2
        (.prim (.str "fresh"))).1
      (NPart.setValue (NPart.setValue
          { dom := .ofList [.text 0 "", .text 9 ""], nextId := 10 }
          { startId := 0, endId := 9, prev := .val (.prim .undef) } (.thenable 5)).1
        (NPart.setValue { dom := .ofList [.text 0 "", .text 9 ""], nextId := 10 }
          { startId := 0, endId := 9, prev := .val (.prim .undef) } (.thenable 5)).2
        (.prim (.str "fresh"))).2 5 (.prim (.num 42))
      = NPart.setValue (NPart.setValue
          { dom := .ofList [.text 0 "", .text 9 ""], nextId := 10 }
          { startId := 0, endId := 9, prev := .val (.prim .undef) } (.thenable 5)).1
        (NPart.setValue { dom := .ofList [.text 0 "", .text 9 ""], nextId := 10 }
          { startId := 0, endId := 9, prev := .val (.prim .undef) } (.thenable 5)).2
        (.prim (.str "fresh"))) :=
  ⟨by decide, (nodePart_promise_stale_guard
      { dom := .ofList [.text 0 "", .text 9 ""], nextId := 10 }
      { startId := 0, endId := 9, prev := .val (.prim .undef) } 5
      (.prim (.str "fresh")) (.prim (.num 42)) (by decide)).1⟩

/-! ## Template compilation (src/index.nomodule.js:20-161)

The `html` tag joins the literal's static fragments with a unique marker
string and lets the browser parse the result; the `Template` constructor
then walks the parsed fragment.  The browser parser and `Math.random` are
environment: the parsed fragment is an explicit input to compilation, and
the marker is a fixed representative string. -/

/-- The expression marker (src/index.nomodule.js:72).  The embedded
`Math.random()` key is modelled as a fixed value. -/
def exprMarker : String := "\x7b\x7blit-0.123456789\x7d\x7d"

mutual
/-- An inert (not yet cloned) template DOM node, as produced by the browser
parser and mutated by the `Template` constructor's walk. -/
inductive MNode where
  | text (content : String)
  | elem (tag : String) (attrs : List (String × String)) (children : MForest)
inductive MForest where
  | nil
  | cons (n : MNode) (rest : MForest)
end

/-- Forest from a list of nodes (notation helper). -/
def MForest.ofList : List MNode → MForest
  | [] => .nil
  | n :: t => .cons n (MForest.ofList t)

/-- Forest concatenation. -/
def MForest.append : MForest → MForest → MForest
  | .nil, g => g
  | .cons n rest, g => .cons n (rest.append g)

/-- A `TemplatePart` descriptor (src/index.nomodule.js:89-97): either an
attribute part (walk index of the owning element, attribute name, raw name
recovered from the literal fragments, and literal segments) or a node part
(walk index of its start marker text node). -/
inductive TPart where
  | attr (index : Int) (name : String) (rawName : String) (strings : List String)
  | node (index : Int)
deriving DecidableEq

/-- The walk index recorded in a template part descriptor. -/
def TPart.tIndex : TPart → Int
  | .attr i _ _ _ => i
  | .node i => i

/-- Models `\w` or one of `. - _ $` — the character class of the attribute-name
regular expression (src/index.nomodule.js:124). -/
def isWordChar (c : Char) : Bool :=
  c.isAlphanum || c = '_' || c = '.' || c = '-' || c = '$'

/-- The match `rawNameString.match(/((?:\w|[.\-_$])+)=["']?$/)[1]`
(src/index.nomodule.js:124): anchored at the end of the string, an optional
quote, preceded by `=`, preceded by one or more name characters; the name is
returned.  `none` models the TypeError the code raises on a malformed
attribute template (a compile-time pattern-match failure, spec section 7). -/
def matchRawName (s : String) : Option String :=
  let cs := s.data.reverse
  let cs := match cs with
    | c :: r => if c = '"' || c = Char.ofNat 39 then r else c :: r
    | [] => []
  match cs with
  | c :: r =>
    if c = '=' then
      let nm := r.takeWhile isWordChar
      if nm.isEmpty then none else some (String.mk nm.reverse)
    else none
  | [] => none

/-- The attribute loop of the `Template` constructor walk
(src/index.nomodule.js:113-130) for one element at walk index `idx`: each
attribute whose value contains the marker is split into literal segments,
emits an attribute part, is removed from the element, and advances the
expression-slot counter by its number of markers; other attributes are kept.
(The `i--` after `removeAttribute` makes the JavaScript loop scan the
original attributes in order despite removal, which is what a fold does.) -/
def processAttrs (tplStrings : List String) (idx : Int) :
    List (String × String) → Nat → List TPart →
    Option (List (String × String) × Nat × List TPart)
  | [], partIndex, acc => some ([], partIndex, acc)
  | (an, av) :: rest, partIndex, acc =>
    let segs := jsSplit av exprMarker
    if segs.length > 1 then
      let attributeString := tplStrings.getD partIndex ""
      let rawNameString := jsTake attributeString (attributeString.length - (segs.headD "").length)
      match matchRawName rawNameString with
      | some rawName =>
        processAttrs tplStrings idx rest (partIndex + (segs.length - 1))
          (acc ++ [.attr idx an rawName segs])
      | none => none
    else
      match processAttrs tplStrings idx rest partIndex acc with
      | some (rest2, pi2, acc2) => some ((an, av) :: rest2, pi2, acc2)
      | none => none

mutual
/-- One step of the `Template` constructor's tree walk
(src/index.nomodule.js:103-159) at a node, given the walk index before
visiting it, the current expression-slot index and the parts emitted so far.
Returns the node's replacement (a marker-splitting text node expands into
several text nodes; a whitespace-only text node is removed) together with
the updated walk state.  Removal of whitespace nodes is deferred in the
code only to keep the TreeWalker's position; producing the final tree
directly is equivalent and pairs with the clone walk over that final tree. -/
def walkNode (tplStrings : List String) :
    MNode → Int → Nat → List TPart → Option (MForest × Int × Nat × List TPart)
  | .text s, idx, partIndex, acc =>
    let i := idx + 1
    let segs := jsSplit s exprMarker
    if segs.length > 1 then
      let lastIndex := segs.length - 1
      let inserted := (segs.take lastIndex).map MNode.text
      let newParts := (List.range lastIndex).map (fun k => TPart.node (i + k))
      some (MForest.ofList (inserted ++ [MNode.text (segs.getLastD "")]),
            i + lastIndex, partIndex + lastIndex, acc ++ newParts)
    else if jsBlank s then
      some (.nil, idx, partIndex, acc)
    else
      some (.cons (.text s) .nil, i, partIndex, acc)
  | .elem tag attrs cs, idx, partIndex, acc =>
    let i := idx + 1
    match processAttrs tplStrings i attrs partIndex acc with
    | none => none
    | some (attrs2, pi2, acc2) =>
      match walkForest tplStrings cs i pi2 acc2 with
      | none => none
      | some (cs2, i3, pi3, acc3) => some (.cons (.elem tag attrs2 cs2) .nil, i3, pi3, acc3)

/-- The walk over a sibling list, in document order. -/
def walkForest (tplStrings : List String) :
    MForest → Int → Nat → List TPart → Option (MForest × Int × Nat × List TPart)
  | .nil, idx, partIndex, acc => some (.nil, idx, partIndex, acc)
  | .cons n rest, idx, partIndex, acc =>
    match walkNode tplStrings n idx partIndex acc with
    | none => none
    | some (ns, i2, pi2, acc2) =>
      match walkForest tplStrings rest i2 pi2 acc2 with
      | none => none
      | some (rest2, i3, pi3, acc3) => some (ns.append rest2, i3, pi3, acc3)
end

/-- A compiled `Template` (src/index.nomodule.js:98-161): an allocation id
(object identity), the walked master fragment, and the ordered part
descriptors.  The walk starts with `index = -1` and no parts. -/
structure TemplateM where
  tid : Nat
  content : MForest
  parts : List TPart

/-- Run the `Template` constructor on the parsed fragment of the joined
static fragments. -/
def compileTemplate (tid : Nat) (frags : List String) (parsed : MForest) : Option TemplateM :=
  match walkForest frags parsed (-1) 0 [] with
  | some (content, _, _, parts) => some ⟨tid, content, parts⟩
  | none => none

/-- A template literal's static-fragment sequence together with its
reference identity (`rid`): JavaScript template tags receive the same
strings array object for each evaluation of the same literal. -/
structure StringsRef where
  rid : Nat
  frags : List String

/-- Models `TemplateResult` (src/index.nomodule.js:37-42). -/
structure TemplateResultM where
  template : TemplateM
  values : List Value

/-- The module-level `templates` map (src/index.nomodule.js:20), keyed by
the reference identity of the strings array, plus the allocator for
template ids. -/
structure TplCache where
  entries : List (Nat × TemplateM)
  nextTid : Nat

/-- Models `templates.get(strings)`. -/
def lookupTpl (entries : List (Nat × TemplateM)) (rid : Nat) : Option TemplateM :=
  (entries.find? (fun e => e.1 = rid)).map (fun e => e.2)

/-- The `html` tag (src/index.nomodule.js:25-32): look the strings array up
by identity; on a miss, compile and cache.  `parsed` is the browser's parse
of the fragments joined with the marker (the environment parser is a
function of that string, so equal fragment sequences always come with the
same parse). -/
def htmlTag (c : TplCache) (ref : StringsRef) (parsed : MForest) (values : List Value) :
    Option (TemplateResultM × TplCache) :=
  match lookupTpl c.entries ref.rid with
  | some t => some (⟨t, values⟩, c)
  | none =>
    match compileTemplate c.nextTid ref.frags parsed with
    | some t => some (⟨t, values⟩, ⟨(ref.rid, t) :: c.entries, c.nextTid + 1⟩)
    | none => none

/-! ## Template instances: clone, bind, update, render
(src/index.nomodule.js:349-390 and 49-67) -/

mutual
/-- Models `document.importNode(content, true)`: a deep clone, assigning fresh node
ids (new JavaScript objects) in document order from the allocator. -/
def cloneNode : MNode → Nat → LNode × Nat
  | .text s, n => (.text n s, n + 1)
  | .elem t a cs, n =>
    let r := cloneForest cs (n + 1)
    (.elem n t a r.1, r.2)

/-- Deep clone of a sibling list. -/
def cloneForest : MForest → Nat → LForest × Nat
  | .nil, n => (.nil, n)
  | .cons m rest, n =>
    let r := cloneNode m n
    let r2 := cloneForest rest r.2
    (.cons r.1 r2.1, r2.2)
end

/-- A bound live part (src/index.nomodule.js:171-335): an `AttributePart`
(element id, attribute name, literal segments; its `size` is
`strings.length - 1`) or a `NodePart`. -/
inductive PartM where
  | node (p : NPart)
  | attr (elemId : Nat) (name : String) (strings : List String)
deriving DecidableEq

/-- Models `defaultPartCallback` (src/index.nomodule.js:336-344): attribute
descriptors bind an `AttributePart` to the element; node descriptors bind a
`NodePart` whose start marker is the node and whose end marker is its next
sibling.  (Compiled node parts always precede a remaining text node, so the
next sibling exists; `none` is unreachable for compiler output.  An
unrecognized descriptor kind cannot be represented: `TPart` is a closed
sum, which models the `throw` on line 343 being unreachable.) -/
def defaultPartCallbackM (dom : LForest) (tp : TPart) (n : LNode) : Option PartM :=
  match tp with
  | .attr _ name _ strings => some (.attr n.nid name strings)
  | .node _ =>
    match nextSibOf dom n.nid with
    | some ns => some (.node ⟨n.nid, ns.nid, .val (.prim .undef)⟩)
    | none => none

/-- Bind every consecutive part whose recorded index equals the current walk
index to the current node (the `if (index === templatePart.index)` branch of
`_clone`, src/index.nomodule.js:377-381, keeps the node and advances only
the part).  Returns the bound parts and the descriptors still to bind. -/
def takeParts (dom : LForest) (n : LNode) (idx : Int) :
    List TPart → Option (List PartM × List TPart)
  | [] => some ([], [])
  | tp :: tps =>
    if tp.tIndex = idx then
      match defaultPartCallbackM dom tp n with
      | none => none
      | some pm =>
        match takeParts dom n idx tps with
        | some (pms, rest) => some (pm :: pms, rest)
        | none => none
    else some ([], tp :: tps)

/-- The binding walk of `TemplateInstance._clone`
(src/index.nomodule.js:368-387): re-walk the cloned fragment in the same
document order as compilation, binding each part descriptor to the node at
its recorded index.  When the walker is exhausted the loop exits (any
descriptors left stay unbound, as in the code). -/
def bindLoop (dom : LForest) : List LNode → Nat → List TPart → Option (List PartM)
  | _, _, [] => some []
  | [], _, _ :: _ => some []
  | n :: en, idx, tps =>
    match takeParts dom n (idx : Int) tps with
    | none => none
    | some (pms, rest) =>
      match bindLoop dom en (idx + 1) rest with
      | some pms2 => some (pms ++ pms2)
      | none => none

/-- One expression slot's contribution to an attribute string
(src/index.nomodule.js:185-196): the slot value is passed through
`getValue`; an array, or a non-string value carrying the iterator symbol
(when truthy), contributes each of its items concatenated in iteration
order; any other value is string-concatenated directly. -/
def attrContrib (v0 : Value) : String :=
  let v := getValue v0
  if v.truthy && (v.isArray || (!v.isString && v.hasIter)) then
    match v with
    | .arr items => String.join (items.map Scalar.toStr)
    | .iterObj items => String.join (items.map Scalar.toStr)
    | w => w.toStr
  else v.toStr

/-- The text-building loop of `AttributePart.setValue`
(src/index.nomodule.js:179-197): literal segments interleaved with the
contributions of the current slice of values, starting at slot `i`.
Missing values read as `undefined`. -/
def buildAttrText : List String → List Value → Nat → String
  | [], _, _ => ""
  | [s], _, _ => s
  | s :: s2 :: rest, values, i =>
    s ++ attrContrib (values.getD i (.prim .undef)) ++ buildAttrText (s2 :: rest) values (i + 1)

/-- Models `TemplateInstance` (src/index.nomodule.js:349-354): the compiled
template's identity, the part callback's identity, and the bound parts. -/
structure InstanceM where
  tid : Nat
  pcId : Nat
  parts : List PartM

/-- Models `TemplateInstance.update(values)` (src/index.nomodule.js:355-367):
parts are applied in order; a node part consumes one value, an attribute
part consumes `size = strings.length - 1` values and performs its single
`setAttribute` with the rebuilt full string. -/
def updateParts (st : DomSt) : List PartM → List Value → Nat → DomSt × List PartM
  | [], _, _ => (st, [])
  | .node np :: rest, values, vi =>
    let r := NPart.setValue st np (values.getD vi (.prim .undef))
    let r2 := updateParts r.1 rest values (vi + 1)
    (r2.1, .node r.2 :: r2.2)
  | .attr eid name strs :: rest, values, vi =>
    let st1 : DomSt := ⟨setAttrForest eid name (buildAttrText strs values vi) st.dom, st.nextId⟩
    let r2 := updateParts st1 rest values (vi + (strs.length - 1))
    (r2.1, .attr eid name strs :: r2.2)

/-- A render container: its child list, the `__templateInstance` stashed on
it, and the node-id allocator. -/
structure RState where
  children : LForest
  inst : Option InstanceM
  nextId : Nat

/-- The first-render path of `render` (src/index.nomodule.js:57-66): create
an instance, clone the template, bind parts, update the detached fragment
with the values, then replace the container's children with the fragment. -/
def renderFresh (st : RState) (tr : TemplateResultM) (pcId : Nat) : Option RState :=
  let c := cloneForest tr.template.content st.nextId
  match bindLoop c.1 (enumForest c.1) 0 tr.template.parts with
  | none => none
  | some parts =>
    let r := updateParts ⟨c.1, c.2⟩ parts tr.values 0
    some ⟨r.1.dom, some ⟨tr.template.tid, pcId, r.2⟩, r.1.nextId⟩

/-- Models `render(result, container, partCallback)` (src/index.nomodule.js:49-67):
if the container's stored instance has the same template and the same part
callback (both by identity), just `update(values)` on it; otherwise take the
first-render path. -/
def renderM (st : RState) (tr : TemplateResultM) (pcId : Nat) : Option RState :=
  match st.inst with
  | some ins =>
    if ins.tid = tr.template.tid ∧ ins.pcId = pcId then
      let r := updateParts ⟨st.children, st.nextId⟩ ins.parts tr.values 0
      some ⟨r.1.dom, some ⟨ins.tid, ins.pcId, r.2⟩, r.1.nextId⟩
    else renderFresh st tr pcId
  | none => renderFresh st tr pcId

example : jsSplit (exprMarker ++ "-" ++ exprMarker) exprMarker = ["", "-", ""] := by decide
example : jsSplit exprMarker exprMarker = ["", ""] := by decide
example : matchRawName "<div attr=\"" = some "attr" := by decide

/-! ## Scenario: the claim C1 template, rendered through the full pipeline -/

/-- The empty template cache at process start. -/
def emptyCache : TplCache := ⟨[], 0⟩

/-- An empty container that has never been rendered into. -/
def emptyContainer : RState := ⟨.nil, none, 0⟩

/-- The static fragments of the literal of `<p>${x}</p>`. -/
def pFrags : List String := ["<p>", "</p>"]

/-- The browser's parse of `"<p>" + exprMarker + "</p>"`. -/
def pParsed : MForest := .cons (.elem "p" [] (.cons (.text exprMarker) .nil)) .nil

/-- The compiled `<p>${x}</p>` template: the marker text node is split into
an empty literal text node (the node part's start marker, walk index 1) and
the final empty text node. -/
def pTpl : TemplateM :=
  ⟨0, .cons (.elem "p" [] (.cons (.text "") (.cons (.text "") .nil))) .nil, [.node 1]⟩

/-- The cache after compiling `pFrags` under reference id 0. -/
def pCache : TplCache := ⟨[(0, pTpl)], 1⟩

example : compileTemplate 0 pFrags pParsed = some pTpl := rfl

example : htmlTag emptyCache ⟨0, pFrags⟩ pParsed [.prim (.str "a")]
    = some (⟨pTpl, [.prim (.str "a")]⟩, pCache) := rfl

/-- The container state after rendering `<p>${z}</p>`: the `p` element got
clone id 0, the part's start marker id 1, its end marker id 2, and the
content text node id 3. -/
def pRendered (z : String) : RState :=
  ⟨.cons (.elem 0 "p" [] (.cons (.text 1 "") (.cons (.text 3 z) (.cons (.text 2 "") .nil)))) .nil,
   some ⟨0, 0, [.node ⟨1, 2, .val (.prim (.str z))⟩]⟩, 4⟩

example : renderM emptyContainer ⟨pTpl, [.prim (.str "a")]⟩ 0 = some (pRendered "a") := rfl

/-- Rewrite lemma: the primitive short-circuit of `NodePart.setValue` when
the previous value is the same primitive (no DOM write at all). -/
theorem NPart.setValue_prim_same (st : DomSt) (p : NPart) (s : Scalar)
    (hs : (Value.prim s) ≠ .prim .nullv) (h : p.prev = .val (.prim s)) :
    NPart.setValue st p (.prim s) = (st, p) := by
  simp only [NPart.setValue, getValue, if_neg hs]
  rw [if_pos h]

/-- Rewrite lemma: `NodePart.setValue` on a changed primitive performs the
`_setText` write. -/
theorem NPart.setValue_prim_diff (st : DomSt) (p : NPart) (s : Scalar)
    (hs : (Value.prim s) ≠ .prim .nullv) (h : p.prev ≠ .val (.prim s)) :
    NPart.setValue st p (.prim s)
      = (partWriteText st p.startId p.endId s, { p with prev := .val (.prim s) }) := by
  simp only [NPart.setValue, getValue, if_neg hs]
  rw [if_neg h]

/-- The instance stored on the container after rendering `<p>${z}</p>`. -/
def pInst (z : String) : InstanceM := ⟨0, 0, [.node ⟨1, 2, .val (.prim (.str z))⟩]⟩

example (z : String) : (pRendered z).inst = some (pInst z) := rfl

/-- A second render of `<p>${y}</p>` into the container holding the
`<p>${x}</p>` instance takes the fast path and only rewrites the content
text node (id 3): same element, same markers, same text node, no
allocation. -/
theorem renderP_update (x y : String) :
    renderM (pRendered x) ⟨pTpl, [.prim (.str y)]⟩ 0 = some (pRendered y) := by
  have hmain : NPart.setValue ⟨(pRendered x).children, 4⟩ ⟨1, 2, .val (.prim (.str x))⟩
        (.prim (.str y))
      = (⟨(pRendered y).children, 4⟩, ⟨1, 2, .val (.prim (.str y))⟩) := by
    by_cases hxy : y = x
    · subst hxy
      rw [NPart.setValue_prim_same _ _ _ (by simp) rfl]
    · rw [NPart.setValue_prim_diff _ _ _ (by simp)
        (by simp only [ne_eq, Prev.val.injEq, Value.prim.injEq, Scalar.str.injEq]
            exact fun hh => hxy hh.symm)]
      rfl
  simp only [renderM, pRendered] at hmain ⊢
  rw [if_pos ⟨rfl, trivial⟩]
  simp only [updateParts, List.getD, List.get?, Option.getD]
  rw [hmain]

/-- The claim C1 scenario: `render(html p-literal [x], container)` then
`render(html p-literal [y], container)`, through the full pipeline (tag
cache, compile, clone, bind, update), returning both container states. -/
def renderPTwice (x y : String) : Option (RState × RState) :=
  match htmlTag emptyCache ⟨0, pFrags⟩ pParsed [.prim (.str x)] with
  | none => none
  | some (r1, c1) =>
    match renderM emptyContainer r1 0 with
    | none => none
    | some st1 =>
      match htmlTag c1 ⟨0, pFrags⟩ pParsed [.prim (.str y)] with
      | none => none
      | some (r2, _) =>
        match renderM st1 r2 0 with
        | none => none
        | some st2 => some (st1, st2)

/-- Claim C1: when the container's stored instance has the same Template and
part callback (by identity) as the incoming result, `render` updates the
existing instance in place — the container's DOM is transformed only by
`update(values)` on the existing parts (no clone, no child replacement).
Concretely for `<p>${x}</p>` then `<p>${y}</p>`: the second render keeps the
`p` element (id 0), both part markers (ids 1, 2) and the content text node
(id 3); only that text node's character data becomes `y`, and no node is
allocated (`nextId` stays 4). -/
theorem render_fast_path_in_place (st : RState) (ins : InstanceM) (tr : TemplateResultM)
    (pcId : Nat) (x y : String)
    (h1 : st.inst = some ins) (h2 : ins.tid = tr.template.tid) (h3 : ins.pcId = pcId) :
    renderM st tr pcId
      = some ⟨(updateParts ⟨st.children, st.nextId⟩ ins.parts tr.values 0).1.dom,
              some ⟨ins.tid, ins.pcId, (updateParts ⟨st.children, st.nextId⟩ ins.parts tr.values 0).2⟩,
              (updateParts ⟨st.children, st.nextId⟩ ins.parts tr.values 0).1.nextId⟩
    ∧ renderPTwice x y = some (pRendered x, pRendered y) := by
  constructor
  · cases st with
    | mk children inst0 nextId =>
      simp only at h1
      subst h1
      simp only [renderM]
      rw [if_pos ⟨h2, h3⟩]
  · have hD := renderP_update x y
    simp only [renderPTwice,
      show htmlTag emptyCache ⟨0, pFrags⟩ pParsed [.prim (.str x)]
          = some (⟨pTpl, [.prim (.str x)]⟩, pCache) from rfl,
      show renderM emptyContainer ⟨pTpl, [.prim (.str x)]⟩ 0 = some (pRendered x) from rfl,
      show htmlTag pCache ⟨0, pFrags⟩ pParsed [.prim (.str y)]
          = some (⟨pTpl, [.prim (.str y)]⟩, pCache) from rfl,
      hD]

/-- Witness for C1 at a concrete input: the container already rendered with
`"x"`, re-rendered with the same template identity. -/
theorem render_fast_path_in_place_witness :
    ((pRendered "x").inst = some (pInst "x")
      ∧ (pInst "x").tid = (⟨pTpl, [Value.prim (.str "y")]⟩ : TemplateResultM).template.tid
      ∧ (pInst "x").pcId = 0)
    ∧ (renderM (pRendered "x") ⟨pTpl, [.prim (.str "y")]⟩ 0
        = some ⟨(updateParts ⟨(pRendered "x").children, (pRendered "x").nextId⟩
                  (pInst "x").parts [Value.prim (.str "y")] 0).1.dom,
                some ⟨(pInst "x").tid, (pInst "x").pcId,
                  (updateParts ⟨(pRendered "x").children, (pRendered "x").nextId⟩
                    (pInst "x").parts [Value.prim (.str "y")] 0).2⟩,
                (updateParts ⟨(pRendered "x").children, (pRendered "x").nextId⟩
                  (pInst "x").parts [Value.prim (.str "y")] 0).1.nextId⟩
       ∧ renderPTwice "x" "y" = some (pRendered "x", pRendered "y")) :=
  ⟨⟨rfl, rfl, rfl⟩,
   render_fast_path_in_place (pRendered "x") (pInst "x") ⟨pTpl, [.prim (.str "y")]⟩ 0 "x" "y"
     rfl rfl rfl⟩

/-! ## Scenario for claim C2: the attribute template `<div attr="${a}-${b}">` -/

/-- Static fragments of the literal `<div attr="${a}-${b}"></div>`. -/
def aFrags : List String := ["<div attr=\"", "-", "\"></div>"]

/-- The browser's parse of the fragments joined with the marker: a `div`
whose `attr` attribute value is `marker-marker`. -/
def aParsed : MForest := .cons (.elem "div" [("attr", exprMarker ++ "-" ++ exprMarker)] .nil) .nil

/-- The compiled attribute template: the literal attribute is stripped from
the element; the part records the literal segments `["", "-", ""]`. -/
def divTpl : TemplateM := ⟨0, .cons (.elem "div" [] .nil) .nil, [.attr 0 "attr" "attr" ["", "-", ""]]⟩

/-- The cache after compiling `aFrags` under reference id 0. -/
def divCache : TplCache := ⟨[(0, divTpl)], 1⟩

example : compileTemplate 0 aFrags aParsed = some divTpl := rfl

example : htmlTag emptyCache ⟨0, aFrags⟩ aParsed [] = some (⟨divTpl, []⟩, divCache) := rfl

/-- Container state after rendering the attribute template: one `div`
(clone id 0) carrying `attr="v"`. -/
def divRendered (v : String) : RState :=
  ⟨.cons (.elem 0 "div" [("attr", v)] .nil) .nil, some ⟨0, 0, [.attr 0 "attr" ["", "-", ""]]⟩, 1⟩

/-- First render writes the attribute built from the literal segments and
the two values. -/
theorem renderAttr_first (a b : String) :
    renderM emptyContainer ⟨divTpl, [.prim (.str a), .prim (.str b)]⟩ 0
      = some (divRendered (buildAttrText ["", "-", ""] [.prim (.str a), .prim (.str b)] 0)) := rfl

/-- A repeat render overwrites the whole attribute with the string rebuilt
from the current values, whatever the attribute held before. -/
theorem renderAttr_second (v a2 b2 : String) :
    renderM (divRendered v) ⟨divTpl, [.prim (.str a2), .prim (.str b2)]⟩ 0
      = some (divRendered (buildAttrText ["", "-", ""] [.prim (.str a2), .prim (.str b2)] 0)) := rfl

/-- A string value contributes itself to the attribute text (the iterable
branch is not taken: `typeof v === 'string'`). -/
theorem attrContrib_str (a : String) : attrContrib (.prim (.str a)) = a := by
  simp [attrContrib, getValue, Value.truthy, Value.isArray, Value.isString, Value.hasIter,
    Value.toStr, Scalar.toStr]

/-- The rebuilt attribute string for segments `["", "-", ""]` and two string
values is their dash-joined concatenation. -/
theorem buildAttr_pair (a b : String) :
    buildAttrText ["", "-", ""] [.prim (.str a), .prim (.str b)] 0 = a ++ "-" ++ b := by
  simp [buildAttrText, attrContrib_str, List.getD, String.empty_append, String.append_empty,
    String.append_assoc]

/-- The claim C2 scenario: render the attribute template with `(a, b)`, then
with `(a2, b2)`, reading the element's literal `attr` value after each
render. -/
def renderAttrTwice (a b a2 b2 : String) : Option (Option String × Option String) :=
  match htmlTag emptyCache ⟨0, aFrags⟩ aParsed [.prim (.str a), .prim (.str b)] with
  | none => none
  | some (r1, c1) =>
    match renderM emptyContainer r1 0 with
    | none => none
    | some st1 =>
      match htmlTag c1 ⟨0, aFrags⟩ aParsed [.prim (.str a2), .prim (.str b2)] with
      | none => none
      | some (r2, _) =>
        match renderM st1 r2 0 with
        | none => none
        | some st2 => some (getAttrForest 0 "attr" st1.children, getAttrForest 0 "attr" st2.children)

/-- Claim C2: for `attr="${a}-${b}"`, rendering with `(a, b)` sets the
literal attribute value to `a-b`, and re-rendering with `(a2, b)` (or any
current values) sets it to `a2-b`: the full attribute string is always
rebuilt from the literal segments interleaved with the current slice of
values, independent of what was previously rendered.  Instantiating
`a := "x", b := "y", a2 := "p", b2 := "y"` gives the spec's `x-y` / `p-y`. -/
theorem attribute_full_reconstruction (a b a2 b2 : String) :
    renderAttrTwice a b a2 b2 = some (some (a ++ "-" ++ b), some (a2 ++ "-" ++ b2)) := by
  simp only [renderAttrTwice,
    show htmlTag emptyCache ⟨0, aFrags⟩ aParsed [.prim (.str a), .prim (.str b)]
        = some (⟨divTpl, [.prim (.str a), .prim (.str b)]⟩, divCache) from rfl,
    renderAttr_first,
    show htmlTag divCache ⟨0, aFrags⟩ aParsed [.prim (.str a2), .prim (.str b2)]
        = some (⟨divTpl, [.prim (.str a2), .prim (.str b2)]⟩, divCache) from rfl,
    renderAttr_second, buildAttr_pair]
  rfl

/-! ## Claim C9: iterable values in attribute expression slots -/

/-- Modelled from the spec (claim C9's wording): an array, or a non-string
object implementing the iterator protocol, contributes the concatenation of
its items in iteration order; any other value is concatenated directly. -/
def attrContribFromSpec : Value → String
  | .arr items => String.join (items.map Scalar.toStr)
  | .iterObj items => String.join (items.map Scalar.toStr)
  | v => v.toStr

/-- Claim C9: the attribute slot contribution computed by
`AttributePart.setValue` (truthiness test, `Array.isArray`, the
`typeof v !== 'string' && v[Symbol.iterator]` probe) coincides with the
spec-level description for every modelled value; concretely, a template
with three slots holding an array, a custom iterable, and a number produces
the single attribute string with every item concatenated in order. -/
theorem attrPart_iterable_refinement (v : Value) :
    attrContrib v = attrContribFromSpec (getValue v)
    ∧ buildAttrText ["a", "b", "c", ""]
        [.arr [.str "1", .num 2], .iterObj [.str "z"], .prim (.num 7)] 0 = "a12bzc7" := by
  constructor
  · rcases v with s | items | items | tid
    · obtain ⟨s', hs'⟩ := getValue_prim_shape s
      rw [show attrContrib (.prim s)
            = (if (getValue (.prim s)).truthy
                  && ((getValue (.prim s)).isArray
                      || (!(getValue (.prim s)).isString && (getValue (.prim s)).hasIter)) then
                match getValue (.prim s) with
                | .arr items => String.join (items.map Scalar.toStr)
                | .iterObj items => String.join (items.map Scalar.toStr)
                | w => w.toStr
              else (getValue (.prim s)).toStr) from rfl, hs']
      rcases s' with a | n | b | _ | _ <;>
        simp [attrContribFromSpec, Value.truthy, Value.isArray, Value.isString, Value.hasIter]
    · simp [attrContrib, getValue, attrContribFromSpec, Value.truthy, Value.isArray]
    · simp [attrContrib, getValue, attrContribFromSpec, Value.truthy, Value.isArray,
        Value.isString, Value.hasIter]
    · simp [attrContrib, getValue, attrContribFromSpec, Value.truthy, Value.isArray,
        Value.isString, Value.hasIter, Value.toStr]
  · decide

/-! ## Claim C5: identity caching of compiled templates -/

/-- Compilation is deterministic in everything but the allocated template
id: two compiles of the same fragments over the same parse agree on parts
and content. -/
theorem compileTemplate_tid_indep (tidA tidB : Nat) (frags : List String) (parsed : MForest)
    (tA tB : TemplateM) (hA : compileTemplate tidA frags parsed = some tA)
    (hB : compileTemplate tidB frags parsed = some tB) :
    tA.tid = tidA ∧ tB.tid = tidB ∧ tA.parts = tB.parts ∧ tA.content = tB.content := by
  unfold compileTemplate at hA hB
  rcases hw : walkForest frags parsed (-1) 0 [] with _ | ⟨content, i, pIdx, parts⟩
  · rw [hw] at hA
    exact absurd hA (by simp)
  · rw [hw] at hA hB
    simp only [Option.some.injEq] at hA hB
    subst hA
    subst hB
    exact ⟨rfl, rfl, rfl, rfl⟩

/-- Claim C5: calling the `html` tag again with the same fragment-sequence
reference returns a result holding the identical cached Template (whatever
values or parse accompany the second call), while calling it with a
distinct-but-structurally-equal fragment sequence compiles an independent
Template (a different identity) whose part list — and master content — are
structurally identical. -/
theorem html_cache_identity (c : TplCache) (ref1 ref2 : StringsRef)
    (parsed parsed3 : MForest) (vs1 vs2 vs3 : List Value)
    (r1 r2 : TemplateResultM) (c1 c2 : TplCache)
    (hne : ref1.rid ≠ ref2.rid) (hfr : ref1.frags = ref2.frags)
    (hmiss1 : lookupTpl c.entries ref1.rid = none)
    (hmiss2 : lookupTpl c.entries ref2.rid = none)
    (h1 : htmlTag c ref1 parsed vs1 = some (r1, c1))
    (h2 : htmlTag c1 ref2 parsed vs2 = some (r2, c2)) :
    htmlTag c1 ref1 parsed3 vs3 = some (⟨r1.template, vs3⟩, c1)
    ∧ r2.template.tid ≠ r1.template.tid
    ∧ r2.template.parts = r1.template.parts
    ∧ r2.template.content = r1.template.content := by
  simp only [htmlTag, hmiss1] at h1
  rcases hc1 : compileTemplate c.nextTid ref1.frags parsed with _ | t1
  · rw [hc1] at h1
    exact absurd h1 (by simp)
  rw [hc1] at h1
  injection h1 with hh1
  have hr1 : r1 = ⟨t1, vs1⟩ := (congrArg Prod.fst hh1).symm
  have hcc1 : c1 = ⟨(ref1.rid, t1) :: c.entries, c.nextTid + 1⟩ := (congrArg Prod.snd hh1).symm
  subst hcc1
  simp only [htmlTag, lookupTpl, List.find?] at h2
  rw [show (decide (ref1.rid = ref2.rid)) = false by simp [hne]] at h2
  have hm2 : (c.entries.find? fun e => e.1 = ref2.rid) = none := by
    have hthis := hmiss2
    simp only [lookupTpl, Option.map_eq_none'] at hthis
    exact hthis
  rw [hm2] at h2
  simp only [cond_false, Option.map_none'] at h2
  rcases hc2 : compileTemplate (c.nextTid + 1) ref2.frags parsed with _ | t2
  · rw [hc2] at h2
    exact absurd h2 (by simp)
  rw [hc2] at h2
  injection h2 with hh2
  have hr2 : r2 = ⟨t2, vs2⟩ := (congrArg Prod.fst hh2).symm
  rw [← hfr] at hc2
  obtain ⟨ht1, ht2, hp, hco⟩ := compileTemplate_tid_indep _ _ _ _ _ _ hc1 hc2
  refine ⟨?_, ?_, ?_, ?_⟩
  · simp only [htmlTag, lookupTpl, List.find?]
    simp [hr1]
  · rw [hr1, hr2]
    simp only
    rw [ht1, ht2]
    omega
  · rw [hr1, hr2]
    exact hp.symm
  · rw [hr1, hr2]
    exact hco.symm

/-- The independent template compiled for a second, distinct reference to
the same `<p>${x}</p>` fragments. -/
def pTplB : TemplateM :=
  ⟨1, .cons (.elem "p" [] (.cons (.text "") (.cons (.text "") .nil))) .nil, [.node 1]⟩

/-- Witness for C5 at a concrete input: the `<p>${x}</p>` fragments under
two distinct reference identities. -/
theorem html_cache_identity_witness :
    ((0 : Nat) ≠ 1 ∧ pFrags = pFrags
      ∧ lookupTpl emptyCache.entries 0 = none ∧ lookupTpl emptyCache.entries 1 = none
      ∧ htmlTag emptyCache ⟨0, pFrags⟩ pParsed [] = some (⟨pTpl, []⟩, pCache)
      ∧ htmlTag pCache ⟨1, pFrags⟩ pParsed [] = some (⟨pTplB, []⟩, ⟨[(1, pTplB), (0, pTpl)], 2⟩))
    ∧ (htmlTag pCache ⟨0, pFrags⟩ pParsed [] = some (⟨pTpl, []⟩, pCache)
       ∧ pTplB.tid ≠ pTpl.tid ∧ pTplB.parts = pTpl.parts ∧ pTplB.content = pTpl.content) :=
  ⟨⟨by decide, rfl, rfl, rfl, rfl, rfl⟩,
   html_cache_identity emptyCache ⟨0, pFrags⟩ ⟨1, pFrags⟩ pParsed pParsed [] [] []
     ⟨pTpl, []⟩ ⟨pTplB, []⟩ pCache ⟨[(1, pTplB), (0, pTpl)], 2⟩
     (by decide) rfl rfl rfl rfl rfl⟩

/-! ## Keybinding registry (src/index.nomodule.js:405) -/

/-- A registered `gluon-keybinding` element: its identity, whether its
`offsetParent` is non-null (the element is rendered/visible), and its
`override` flag. -/
structure KElem where
  id : Nat
  visible : Bool
  override : Bool
deriving DecidableEq

/-- Models `GluonKeybinding.__register` for a fresh registration under one key
(src/index.nomodule.js:405): an override-flagged element is unshifted to
the front of the key's list, a plain one is pushed to the back. -/
def registerKey (l : List KElem) (e : KElem) : List KElem :=
  if e.override then e :: l else l ++ [e]

/-- Models `handleKeydown`'s `.every` traversal of a key's registration list
(src/index.nomodule.js:405), for a keydown that is not default-prevented:
for each element in list order, a visible element is clicked
(`stopPropagation` is called) and traversal continues iff `!b.override`;
an element whose `offsetParent` is null makes the callback return
`undefined` (falsy), which stops `.every`.  The result is the list of
clicked element ids in click order. -/
def dispatchKey : List KElem → List Nat
  | [] => []
  | e :: rest =>
    if e.visible then
      (if e.override then [e.id] else e.id :: dispatchKey rest)
    else []

/-- Claim C6 (counterexample): after two plain (non-override) visible
registrations for the same key — element 1 first, element 2 second — the
keydown dispatch clicks element 1 first, not the most recently registered
element 2 (plain registrations are appended and the list is traversed from
the front). -/
theorem keydispatch_order_counterexample :
    ¬ ((dispatchKey (registerKey (registerKey []
        ⟨1, true, false⟩) ⟨2, true, false⟩)).head? = some 2) := by decide

/-- Claim C6 (amended): dispatch click order follows the list: two plain
visible registrations are clicked in registration order (the earlier one
first, and the later one is also clicked, since a plain registration
requests continuation); an override-flagged registration is placed at the
front, clicked first, and halts dispatch, so the other registrant is not
invoked. -/
theorem keydispatch_order_amended (e1 e2 f1 f2 : KElem)
    (h1 : e1.visible = true) (h2 : e2.visible = true)
    (h1o : e1.override = false) (h2o : e2.override = false)
    (h3 : f2.visible = true) (h4 : f2.override = true) :
    dispatchKey (registerKey (registerKey [] e1) e2) = [e1.id, e2.id]
    ∧ dispatchKey (registerKey (registerKey [] f1) f2) = [f2.id] := by
  constructor
  · simp [registerKey, dispatchKey, h1, h2, h1o, h2o]
  · cases hf : f1.override <;> simp [registerKey, dispatchKey, h3, h4, hf]

/-- Witness for the amended C6 at concrete inputs. -/
theorem keydispatch_order_amended_witness :
    ((⟨1, true, false⟩ : KElem).visible = true ∧ (⟨2, true, false⟩ : KElem).visible = true
      ∧ (⟨1, true, false⟩ : KElem).override = false ∧ (⟨2, true, false⟩ : KElem).override = false
      ∧ (⟨4, true, true⟩ : KElem).visible = true ∧ (⟨4, true, true⟩ : KElem).override = true)
    ∧ (dispatchKey (registerKey (registerKey [] ⟨1, true, false⟩) ⟨2, true, false⟩) = [1, 2]
       ∧ dispatchKey (registerKey (registerKey [] ⟨3, true, false⟩) ⟨4, true, true⟩) = [4]) :=
  ⟨⟨rfl, rfl, rfl, rfl, rfl, rfl⟩,
   keydispatch_order_amended ⟨1, true, false⟩ ⟨2, true, false⟩ ⟨3, true, false⟩ ⟨4, true, true⟩
     rfl rfl rfl rfl rfl rfl⟩

/-- Claim C10: the keydown traversal halts at the first element whose
`offsetParent` is null: only the visible non-override prefix is clicked;
the invisible element is not clicked, and nothing after it is invoked even
if visible. -/
theorem keydispatch_halts_at_invisible (pre post : List KElem) (e : KElem)
    (hpre : pre.all (fun a => a.visible && !a.override) = true)
    (he : e.visible = false) :
    dispatchKey (pre ++ e :: post) = pre.map KElem.id := by
  induction pre with
  | nil => simp [dispatchKey, he]
  | cons a rest ih =>
    simp only [List.all_cons, Bool.and_eq_true, Bool.not_eq_true'] at hpre
    obtain ⟨⟨hv, ho⟩, hrest⟩ := hpre
    simp [dispatchKey, hv, ho, ih hrest]

/-- Witness for C10: visible element 1, invisible element 2, visible
element 3 — only element 1 is clicked. -/
theorem keydispatch_halts_at_invisible_witness :
    (([(⟨1, true, false⟩ : KElem)].all (fun a => a.visible && !a.override) = true)
      ∧ (⟨2, false, false⟩ : KElem).visible = false)
    ∧ dispatchKey ([(⟨1, true, false⟩ : KElem)] ++ ⟨2, false, false⟩ :: [⟨3, true, false⟩]) = [1] :=
  ⟨⟨by decide, rfl⟩,
   keydispatch_halts_at_invisible [⟨1, true, false⟩] [⟨3, true, false⟩] ⟨2, false, false⟩
     (by decide) rfl⟩

/-! ## Slide deck hash parsing (src/index.nomodule.js:632)

`currentSlide` and `currentStep` match the hash against
`/(?:slide-(\d+))?(?:\/step-(\d+|Infinity))?/`.  Both optional groups make
the expression match (possibly emptily) at position 0, so the model applies
the groups at the start of the hash: group 1 requires the literal `slide-`
followed by one or more digits (greedy); group 2 then requires `/step-`
followed by digits or the literal `Infinity` at the position where group 1
stopped. -/

/-- Strip a literal prefix from a character list (one regex literal). -/
def dropLead : List Char → List Char → Option (List Char)
  | [], s => some s
  | _ :: _, [] => none
  | p :: ps, c :: cs => if p = c then dropLead ps cs else none

/-- Numeric value of a decimal digit run (the string-to-number coercion in
`(match[k] || 1) - 1`). -/
def digitsVal (ds : List Char) : Nat :=
  ds.foldl (fun a c => 10 * a + (c.toNat - '0'.toNat)) 0

/-- Group 1 `(?:slide-(\d+))?`: the digit run after a leading `slide-`, if
any, together with the rest of the hash after the match (the whole hash
when the group matches empty). -/
def slideGroup (h : List Char) : Option (List Char) × List Char :=
  match dropLead "slide-".data h with
  | some r =>
    let ds := r.takeWhile Char.isDigit
    if ds.isEmpty then (none, h) else (some ds, r.drop ds.length)
  | none => (none, h)

/-- The capture of group 2 `(?:\/step-(\d+|Infinity))?`. -/
inductive StepGroup where
  | noneG
  | digits (ds : List Char)
  | infinity
deriving DecidableEq

/-- Group 2: after a literal `/step-`, a digit run (preferred alternative)
or the literal `Infinity`; otherwise the optional group matches empty. -/
def stepGroup (r : List Char) : StepGroup :=
  match dropLead "/step-".data r with
  | some r2 =>
    let ds := r2.takeWhile Char.isDigit
    if !ds.isEmpty then .digits ds
    else if ("Infinity".data).isPrefixOf r2 then .infinity
    else .noneG
  | none => .noneG

/-- Models `get currentSlide` (src/index.nomodule.js:632):
`(hash.match(...)[1] || 1) - 1`. -/
def currentSlideOf (h : List Char) : Int :=
  (match (slideGroup h).1 with
   | some ds => (digitsVal ds : Int)
   | none => 1) - 1

/-- Models `get currentStep` (src/index.nomodule.js:632):
`(hash.match(...)[2] || 1) - 1`.  A captured `Infinity` yields the
non-finite JavaScript number `Infinity - 1 = Infinity`, modelled as
`none`; every other case is a finite integer. -/
def currentStepOf (h : List Char) : Option Int :=
  match stepGroup (slideGroup h).2 with
  | .digits ds => some ((digitsVal ds : Int) - 1)
  | .noneG => some 0
  | .infinity => none

/-- Stripping a literal prefix off itself-plus-rest yields the rest. -/
theorem dropLead_self_append (p s : List Char) : dropLead p (p ++ s) = some s := by
  induction p with
  | nil => simp [dropLead]
  | cons c cs ih => simp [dropLead, ih]

/-- A greedy digit scan over a digit run followed by a non-digit (or
nothing) captures exactly the run. -/
theorem digit_scan (ds rest : List Char) (hds : ds.all Char.isDigit = true)
    (hrest : ∀ c, rest.head? = some c → c.isDigit = false) :
    (ds ++ rest).takeWhile Char.isDigit = ds ∧ (ds ++ rest).drop ds.length = rest := by
  induction ds with
  | nil =>
    simp only [List.nil_append, List.length_nil, List.drop_zero, and_true]
    cases rest with
    | nil => simp
    | cons c cs => simp [List.takeWhile_cons, hrest c rfl]
  | cons d ds' ih =>
    simp only [List.all_cons, Bool.and_eq_true] at hds
    obtain ⟨hd, hds'⟩ := hds
    obtain ⟨ih1, ih2⟩ := ih hds'
    simp [List.takeWhile_cons, hd, ih1, ih2]

/-- Claim C7: for a hash of the form `slide-<m>/step-<n>` (with `m`, `n`
decimal numerals), `currentSlide` is `m - 1` and `currentStep` is `n - 1`;
for a hash with no step segment, `currentStep` defaults to step 1, i.e.
zero-based index 0. -/
theorem deck_hash_parsing (ds es : List Char)
    (hds : ds.all Char.isDigit = true) (hes : es.all Char.isDigit = true)
    (hds0 : ds ≠ []) (hes0 : es ≠ []) :
    currentSlideOf ("slide-".data ++ ds ++ "/step-".data ++ es) = (digitsVal ds : Int) - 1
    ∧ currentStepOf ("slide-".data ++ ds ++ "/step-".data ++ es)
        = some ((digitsVal es : Int) - 1)
    ∧ currentStepOf ("slide-".data ++ ds) = some 0 := by
  have hscan := digit_scan ds ("/step-".data ++ es) hds
    (by
      intro c hc
      simp only [show ("/step-".data ++ es).head? = some '/' from rfl, Option.some.injEq] at hc
      subst hc
      decide)
  have hscan0 := digit_scan ds [] hds (by intro c hc; simp at hc)
  have hscanE := digit_scan es [] hes (by intro c hc; simp at hc)
  rw [List.append_nil] at hscan0 hscanE
  have hne : ds.isEmpty = false := by
    cases ds with
    | nil => exact absurd rfl hds0
    | cons a l => rfl
  have hneE : es.isEmpty = false := by
    cases es with
    | nil => exact absurd rfl hes0
    | cons a l => rfl
  have hassoc : "slide-".data ++ ds ++ "/step-".data ++ es
      = "slide-".data ++ (ds ++ ("/step-".data ++ es)) := by
    simp [List.append_assoc]
  have h1 : slideGroup ("slide-".data ++ ds ++ "/step-".data ++ es)
      = (some ds, "/step-".data ++ es) := by
    rw [hassoc]
    simp only [slideGroup, dropLead_self_append, hscan.1, hscan.2, hne, Bool.false_eq_true,
      if_false]
  have h2 : stepGroup ("/step-".data ++ es) = .digits es := by
    simp only [stepGroup, dropLead_self_append, hscanE.1, hneE, Bool.not_false, if_true]
  have h3 : slideGroup ("slide-".data ++ ds) = (some ds, []) := by
    simp only [slideGroup, dropLead_self_append, hscan0.1, hscan0.2, hne, Bool.false_eq_true,
      if_false]
  refine ⟨?_, ?_, ?_⟩
  · unfold currentSlideOf
    rw [h1]
  · unfold currentStepOf
    rw [h1]
    dsimp only
    rw [h2]
  · unfold currentStepOf
    rw [h3]
    rfl

/-- Witness for C7: `#slide-2/step-3` yields slide index 1 and step index
2; `#slide-2` yields step index 0. -/
theorem deck_hash_parsing_witness :
    ((['2'].all Char.isDigit = true) ∧ (['3'].all Char.isDigit = true)
      ∧ (['2'] ≠ ([] : List Char)) ∧ (['3'] ≠ ([] : List Char)))
    ∧ (currentSlideOf "slide-2/step-3".data = 1
       ∧ currentStepOf "slide-2/step-3".data = some 2
       ∧ currentStepOf "slide-2".data = some 0) :=
  ⟨⟨by decide, by decide, by decide, by decide⟩,
   deck_hash_parsing ['2'] ['3'] (by decide) (by decide) (by decide) (by decide)⟩

/-! ## Slide step clamping (src/index.nomodule.js:707) -/

/-- Models `SlidemSlideBase.attributeChangedCallback` for the `step` attribute:
when `Number(newValue) > this.steps + 1`, the callback rewrites the
attribute to `steps + 1` (re-entering itself, which then applies that
value); otherwise the value is applied as-is by `__setStep`.  The result is
the step value actually applied; the function is total — no path raises. -/
def stepAfterChange (steps : Nat) (v : Int) : Int :=
  if v > (steps : Int) + 1 then (steps : Int) + 1 else v

/-- Models `__setStep(t)`: reveal element `n` (opacity 1) iff `n < t - 1`. -/
def setStepOpacities (steps : Nat) (t : Int) : List Nat :=
  (List.range steps).map (fun (n : Nat) => if (n : Int) < t - 1 then 1 else 0)

/-- Claim C8: a `step` value beyond the slide's declared step count is
silently clamped: every `v > steps` ends up applying exactly `steps + 1`,
the largest permitted step value (any `w ≤ steps + 1` passes through
unchanged), and the clamped step reveals every `[reveal]` element.  No
error is raised anywhere (the model is total). -/
theorem step_clamped (steps : Nat) (v w : Int) (i : Nat)
    (hv : (steps : Int) < v) (hw : w ≤ (steps : Int) + 1) (hi : i < steps) :
    stepAfterChange steps v = (steps : Int) + 1
    ∧ stepAfterChange steps w = w
    ∧ (setStepOpacities steps (stepAfterChange steps v))[i]? = some 1 := by
  have hclamp : stepAfterChange steps v = (steps : Int) + 1 := by
    unfold stepAfterChange
    split
    · rfl
    · omega
  refine ⟨hclamp, ?_, ?_⟩
  · unfold stepAfterChange
    rw [if_neg (by omega)]
  · rw [hclamp]
    unfold setStepOpacities
    rw [List.getElem?_map, List.getElem?_range hi]
    simp only [Option.map]
    rw [if_pos (by omega)]

/-- Witness for C8: a slide with 2 declared steps, step attribute set to 5:
the applied step is 3 (= steps + 1), a legal value 3 passes through, and
reveal element 1 is shown. -/
theorem step_clamped_witness :
    (((2 : Nat) : Int) < 5 ∧ (3 : Int) ≤ ((2 : Nat) : Int) + 1 ∧ 1 < 2)
    ∧ (stepAfterChange 2 5 = ((2 : Nat) : Int) + 1 ∧ stepAfterChange 2 3 = 3
       ∧ (setStepOpacities 2 (stepAfterChange 2 5))[1]? = some 1) :=
  ⟨⟨by decide, by decide, by decide⟩, step_clamped 2 5 3 1 (by decide) (by decide) (by decide)⟩
